import Mathlib

/-!
Shallow embedding of `couch_rs/src/document.rs` (Document, TypedCouchDocument
for Value, DocumentCollection, populate) and proofs about it.

JSON values are modelled by the inductive `Value` below; objects are
association lists of string keys (serde_json maps hold at most one entry per
key; lookups take the first match, which coincides on unique-key maps).
Numbers are modelled as integers, which covers every numeric value appearing
in this file. Rust panics (unchecked `unwrap`, out-of-bounds indexing) are
modelled by `Option`/`Except` results, `none`/`.error` standing for the
hard failure.
-/

set_option autoImplicit false

namespace CouchRs

/-- JSON value, mirroring `serde_json::Value` as used by `document.rs`. -/
inductive Value where
  | null
  | bool (b : Bool)
  | num (n : Int)
  | str (s : String)
  | arr (elems : List Value)
  | obj (fields : List (String × Value))

/-- First binding of `key` in an object's field list (serde_json `Map::get`;
unique keys make "first" irrelevant on real maps). -/
def lookupKey (fields : List (String × Value)) (key : String) : Option Value :=
  match fields with
  | [] => none
  | (k, v) :: rest => if k = key then some v else lookupKey rest key

/-- Reading `v[key]` with a string key, mirroring serde_json's
`Index<&str> for Value`: on an object, the value at the key or `Null`
when absent; on any non-object (arrays included) the result is `Null`. -/
def Value.getKey (v : Value) (key : String) : Value :=
  match v with
  | .obj fields =>
    match lookupKey fields key with
    | some w => w
    | none => .null
  | _ => .null

/-- Insert or overwrite a key in an object's field list (serde_json
`Map::insert` keeps at most one entry per key). -/
def insertKey (fields : List (String × Value)) (key : String) (v : Value) :
    List (String × Value) :=
  match fields with
  | [] => [(key, v)]
  | (k, w) :: rest =>
    if k = key then (key, v) :: rest else (k, w) :: insertKey rest key v

/-- Writing `v[key] = w` with a string key, mirroring serde_json's
`IndexMut<&str>` (`index_or_insert`): on an object, insert/overwrite; on
`Null`, the value first becomes an empty object; on any other value the
write panics, modelled by `none`. -/
def Value.setKey (v : Value) (key : String) (w : Value) : Option Value :=
  match v with
  | .obj fields => some (.obj (insertKey fields key w))
  | .null => some (.obj [(key, w)])
  | _ => none

/-- `v == Value::Null` in Rust (`PartialEq` against the `Null` variant). -/
def Value.isNull : Value → Bool
  | .null => true
  | _ => false

/-- `v.as_str()`: `some` exactly on strings. -/
def Value.asStr : Value → Option String
  | .str s => some s
  | _ => none

/-- `v.as_array()`: `some` exactly on arrays. -/
def Value.asArray : Value → Option (List Value)
  | .arr elems => some elems
  | _ => none

/-- Modelled from the spec: the error kind raised when "a required identity
field (`_id`, `_rev`) is missing or of the wrong type during document
construction or capability access". The `json_extr!` macro that raises it
lives outside `document.rs`. -/
inductive ExtractionError where
  | extractionError

/-- Modelled from the spec: `json_extr!` targeting `String` is "unchecked
extraction" that hard-fails "when `_id` or `_rev` is missing or non-string"
(a missing key reads as `Null` through `getKey`). -/
def extractString (v : Value) : Except ExtractionError String :=
  match v with
  | .str s => .ok s
  | _ => .error .extractionError

/-- Modelled from the spec: `json_extr!` targeting `Option<String>` is "safe
field extraction with type coercion": a `Null` (absent) value coerces to
`none`, a string to `some`, and anything else is a hard extraction failure. -/
def extractOptString (v : Value) : Except ExtractionError (Option String) :=
  match v with
  | .null => .ok none
  | .str s => .ok (some s)
  | _ => .error .extractionError

/-- Modelled from the spec: `json_extr!` targeting `Option<u32>` — `Null`
coerces to `none`, a number in `u32` range to `some`, anything else is a
hard extraction failure. -/
def extractOptNat (v : Value) : Except ExtractionError (Option Nat) :=
  match v with
  | .null => .ok none
  | .num n => if 0 ≤ n ∧ n < 2 ^ 32 then .ok (some n.toNat) else .error .extractionError
  | _ => .error .extractionError

/-- Modelled from the spec: `json_extr!` targeting `Vec<Value>` — hard
extraction failure unless the value is an array. -/
def extractValueList (v : Value) : Except ExtractionError (List Value) :=
  match v with
  | .arr elems => .ok elems
  | _ => .error .extractionError

/-- `TypedCouchDocument for Value :: set_id`: insert/overwrite `_id` when the
value is an object, otherwise leave the value untouched
(`as_object_mut` yields `None`). -/
def Value.set_id (v : Value) (id : String) : Value :=
  match v with
  | .obj fields => .obj (insertKey fields "_id" (.str id))
  | _ => v

/-- `TypedCouchDocument for Value :: set_rev`: insert/overwrite `_rev` when
the value is an object, otherwise leave the value untouched. -/
def Value.set_rev (v : Value) (rev : String) : Value :=
  match v with
  | .obj fields => .obj (insertKey fields "_rev" (.str rev))
  | _ => v

/-- `Document`: typed `_id`/`_rev` over the raw JSON value `doc`. -/
structure Document where
  _id : String
  _rev : String
  doc : Value

/-- `Document::new`: extracts `_id` and `_rev` via `json_extr!` (hard failure
when missing or non-string) and keeps the whole value as `doc`. -/
def Document.new (doc : Value) : Except ExtractionError Document := do
  let i ← extractString (doc.getKey "_id")
  let r ← extractString (doc.getKey "_rev")
  .ok ⟨i, r, doc⟩

/-- `Document::get_keys`. -/
def Document.get_keys (d : Document) : List String :=
  match d.doc with
  | .obj fields => fields.map Prod.fst
  | _ => []

/-- `Document::get_data`: a snapshot of the raw JSON value. -/
def Document.get_data (d : Document) : Value :=
  d.doc

/-- The loop body of `Document::merge`: walk the incoming object's entries in
order; skip `_id`/`_rev`; write every other entry through `self[k] = v`
(`setKey`; `none` models the panic on a non-object, non-null `doc`). -/
def Document.mergeEntries (d : Document) :
    List (String × Value) → Option Document
  | [] => some d
  | (k, v) :: rest =>
    if k = "_id" ∨ k = "_rev" then d.mergeEntries rest
    else
      match d.doc.setKey k v with
      | some doc2 => Document.mergeEntries { d with doc := doc2 } rest
      | none => none

/-- `Document::merge`: when the incoming value is an object, fold its entries
through `mergeEntries`; otherwise (`as_object` is `None`) do nothing. -/
def Document.merge (d : Document) (doc : Value) : Option Document :=
  match doc with
  | .obj fields => d.mergeEntries fields
  | _ => some d

/-- `DocumentCollectionItem::new`: denormalizes `doc._id` into `id`. -/
structure DocumentCollectionItem where
  id : String
  doc : Document

/-- `DocumentCollectionItem::new`. -/
def DocumentCollectionItem.new (doc : Document) : DocumentCollectionItem :=
  ⟨doc._id, doc⟩

/-- `DocumentCollection`. `total_rows` is a `u32` in the source
(`items.len() as u32`), hence the `% 2 ^ 32` at the construction sites. -/
structure DocumentCollection where
  offset : Option Nat
  rows : List DocumentCollectionItem
  total_rows : Nat
  bookmark : Option String

/-- `id.starts_with('_')`: whether the first character is `'_'`. -/
def startsWithChar (s : String) (c : Char) : Bool :=
  match s.data with
  | [] => false
  | c0 :: _ => c0 = c

/-- The per-row filter of `DocumentCollection::new`: drop the row if its
`error` field extracts to `Some` (non-null); otherwise extract the embedded
document's `_id` (hard failure if non-string) and drop `_design`-style
documents whose id starts with `'_'`. -/
def rowKeep (row : Value) : Except ExtractionError Bool := do
  let maybeErr ← extractOptString (row.getKey "error")
  match maybeErr with
  | some _ => .ok false
  | none => do
    let id ← extractString ((row.getKey "doc").getKey "_id")
    .ok (!startsWithChar id '_')

/-- The filter-then-map pipeline of `DocumentCollection::new`: keep the rows
`rowKeep` accepts and wrap each one's `doc` value via `Document::new` and
`DocumentCollectionItem::new`. -/
def buildItems : List Value → Except ExtractionError (List DocumentCollectionItem)
  | [] => .ok []
  | row :: rest => do
    let keep ← rowKeep row
    if keep then
      let document ← Document.new (row.getKey "doc")
      let tail ← buildItems rest
      .ok (DocumentCollectionItem.new document :: tail)
    else
      buildItems rest

/-- `DocumentCollection::new`: reads the `rows` array, filters and wraps it,
reads `offset` from the raw result, recomputes `total_rows` as the retained
row count (cast to `u32`), and leaves `bookmark` unset. -/
def DocumentCollection.new (doc : Value) : Except ExtractionError DocumentCollection := do
  let rows ← extractValueList (doc.getKey "rows")
  let items ← buildItems rows
  let off ← extractOptNat (doc.getKey "offset")
  .ok ⟨off, items, items.length % 2 ^ 32, none⟩

/-- `DocumentCollection::new_from_documents`. -/
def DocumentCollection.new_from_documents (docs : List Document)
    (bookmark : Option String) : DocumentCollection :=
  ⟨some 0, docs.map DocumentCollectionItem.new, docs.length % 2 ^ 32, bookmark⟩

/-- `DocumentCollection::get_data`. -/
def DocumentCollection.get_data (c : DocumentCollection) : List Value :=
  c.rows.map fun item => item.doc.get_data

/-- `Index<usize> for DocumentCollection`: `rows.get(index).unwrap()`; `none`
models the panic on out-of-bounds access. -/
def DocumentCollection.index (c : DocumentCollection) (i : Nat) :
    Option DocumentCollectionItem :=
  c.rows[i]?

/-- The id-collection step of `Document::populate`:
`val.as_array().unwrap_or(&Vec::new()).iter().map(|v| s!(v.as_str().unwrap_or(""))).collect()`.
Non-arrays yield no ids; non-string entries coerce to `""`. -/
def collectIds (val : Value) : List String :=
  match val.asArray with
  | some elems => elems.map fun v => (v.asStr).getD ""
  | none => []

/-- The re-filter of `Document::populate` over the fetched documents: keep a
fetched `d` only when `d["_id"]` is a string `did` and `val[did]` (string
indexing into the pre-fetch field value) is non-null. -/
def populateFilter (val : Value) (data : List Value) : List Value :=
  data.filterMap fun d =>
    match (d.getKey "_id").asStr with
    | some did => if !(val.getKey did).isNull then some d else none
    | none => none

/-- `Document::populate`: the database collaborator's `get_bulk` is passed in
as a function (it is external to this core). Absent/null field: no-op. On
fetch success the field is overwritten with the filtered results collected
into an array; on fetch failure the document is returned unchanged. `none`
models the panic of `self[field] = ...` on a non-object, non-null `doc`. -/
def Document.populate (d : Document) (field : String)
    (get_bulk : List String → Except Unit DocumentCollection) : Option Document :=
  let val := d.doc.getKey field
  if val.isNull then
    some d
  else
    let ids := collectIds val
    match (get_bulk ids).map DocumentCollection.get_data with
    | .ok data =>
      match d.doc.setKey field (.arr (populateFilter val data)) with
      | some doc2 => some { d with doc := doc2 }
      | none => none
    | .error _ => some d

/-! Predicates used to state the claims. -/

/-- The embedded document id of a query-result row, read defensively
(rows handled by the claims always carry a string id there). -/
def idOf (row : Value) : String :=
  ((row.getKey "doc").getKey "_id").asStr.getD ""

/-- The embedded document revision of a query-result row. -/
def revOf (row : Value) : String :=
  ((row.getKey "doc").getKey "_rev").asStr.getD ""

/-- The item `DocumentCollection::new` builds from a retained row. -/
def mkRowItem (row : Value) : DocumentCollectionItem :=
  DocumentCollectionItem.new ⟨idOf row, revOf row, row.getKey "doc"⟩

/-- A row carrying a non-null `error` field. -/
def isErrRow (row : Value) : Bool :=
  !(row.getKey "error").isNull

/-- An error-free row whose embedded `_id` starts with the reserved `'_'`. -/
def isDesignRow (row : Value) : Bool :=
  (row.getKey "error").isNull && startsWithChar (idOf row) '_'

/-- A row `DocumentCollection::new` retains: no error, id not reserved. -/
def keepRow (row : Value) : Bool :=
  (row.getKey "error").isNull && !startsWithChar (idOf row) '_'

/-- A well-formed query-result row: `error` is null or a string, and the
embedded document carries string `_id` and `_rev` (so no extraction panics). -/
def RowWF (row : Value) : Prop :=
  (row.getKey "error" = .null ∨ ∃ s, row.getKey "error" = .str s)
  ∧ (∃ i, (row.getKey "doc").getKey "_id" = .str i)
  ∧ (∃ r, (row.getKey "doc").getKey "_rev" = .str r)

/-- A collection item whose denormalized `id` and typed fields agree with its
raw JSON, as every item built by `DocumentCollection::new` does. -/
def itemWF (it : DocumentCollectionItem) : Prop :=
  Document.new it.doc.doc = .ok it.doc ∧ it.id = it.doc._id

/-! Concrete values used by witnesses and counterexamples. -/

/-- Reconstruct a `Document` from each raw JSON value in turn via
`Document::new`, propagating the first extraction failure. -/
def constructAll : List Value → Except ExtractionError (List Document)
  | [] => .ok []
  | v :: rest => do
    let d ← Document.new v
    let ds ← constructAll rest
    .ok (d :: ds)

/-- A document with id `id1`, as raw JSON. -/
def docId1 : Value := .obj [("_id", .str "id1"), ("_rev", .str "r1")]

/-- A document with id `id3`, as raw JSON. -/
def docId3 : Value := .obj [("_id", .str "id3"), ("_rev", .str "r3")]

/-- A collection holding the documents `id1` and `id3`. -/
def collId1Id3 : DocumentCollection :=
  DocumentCollection.new_from_documents
    [⟨"id1", "r1", docId1⟩, ⟨"id3", "r3", docId3⟩] none

/-- A bulk fetch that always succeeds with the documents `id1` and `id3`. -/
def gbId1Id3 : List String → Except Unit DocumentCollection :=
  fun _ => .ok collId1Id3

/-- A document whose field `f` holds the id array `["id1","id2"]`. -/
def docWithIdArray : Document :=
  ⟨"d", "1", .obj [("_id", .str "d"), ("_rev", .str "1"),
    ("f", .arr [.str "id1", .str "id2"])]⟩

/-- A document whose field `f` holds the non-null, non-array value `"x"`. -/
def docWithStrField : Document :=
  ⟨"d", "1", .obj [("_id", .str "d"), ("_rev", .str "1"), ("f", .str "x")]⟩

/-- A document whose payload is `{"a":0,"b":2}`. -/
def docMergeEx : Document :=
  ⟨"d", "1", .obj [("a", .num 0), ("b", .num 2)]⟩

/-- Four raw query-result rows: a plain document, a row carrying an error, a
`_design`-prefixed document, and another plain document. -/
def rawRowsEx : List Value :=
  [.obj [("doc", docId1)],
   .obj [("error", .str "not_found"), ("doc", docId3)],
   .obj [("doc", .obj [("_id", .str "_design/x"), ("_rev", .str "r")])],
   .obj [("doc", docId3)]]

/-- A raw query result over `rawRowsEx`, with no `offset` and a reported
`total_rows` of 99 (which the constructor must ignore). -/
def rawQueryEx : Value :=
  .obj [("rows", .arr rawRowsEx), ("total_rows", .num 99)]

/-! Helper lemmas about the JSON primitives. -/

theorem lookupKey_insertKey_self (fields : List (String × Value)) (key : String)
    (v : Value) : lookupKey (insertKey fields key v) key = some v := by
  induction fields with
  | nil => simp [insertKey, lookupKey]
  | cons p rest ih =>
    obtain ⟨k, w⟩ := p
    by_cases h : k = key <;> simp [insertKey, lookupKey, h, ih]

theorem lookupKey_insertKey_ne (fields : List (String × Value)) {key other : String}
    (v : Value) (h : other ≠ key) :
    lookupKey (insertKey fields key v) other = lookupKey fields other := by
  induction fields with
  | nil => simp [insertKey, lookupKey, Ne.symm h]
  | cons p rest ih =>
    obtain ⟨k, w⟩ := p
    by_cases hk : k = key
    · subst hk
      simp [insertKey, lookupKey, h, Ne.symm h]
    · simp [insertKey, lookupKey, hk, ih]

theorem lookupKey_eq_none_of_not_mem (fields : List (String × Value)) {key : String}
    (h : key ∉ fields.map Prod.fst) : lookupKey fields key = none := by
  induction fields with
  | nil => rfl
  | cons p rest ih =>
    obtain ⟨k, w⟩ := p
    simp only [List.map_cons, List.mem_cons] at h
    push_neg at h
    simp [lookupKey, Ne.symm h.1, ih h.2]

theorem lookupKey_eq_some_of_mem (fields : List (String × Value)) {key : String}
    {v : Value} (hnd : (fields.map Prod.fst).Nodup) (h : (key, v) ∈ fields) :
    lookupKey fields key = some v := by
  induction fields with
  | nil => simp at h
  | cons p rest ih =>
    obtain ⟨k, w⟩ := p
    simp only [List.map_cons, List.nodup_cons] at hnd
    rcases List.mem_cons.mp h with heq | hmem
    · cases heq
      simp [lookupKey]
    · have hk : k ≠ key := by
        intro hk
        subst hk
        exact hnd.1 (List.mem_map.mpr ⟨(k, v), hmem, rfl⟩)
      simp [lookupKey, hk, ih hnd.2 hmem]

theorem getKey_obj (fields : List (String × Value)) (key : String) :
    (Value.obj fields).getKey key = (lookupKey fields key).getD .null := by
  cases h : lookupKey fields key <;> simp [Value.getKey, h]

theorem getKey_insertKey_self (fields : List (String × Value)) (key : String)
    (v : Value) : (Value.obj (insertKey fields key v)).getKey key = v := by
  rw [getKey_obj, lookupKey_insertKey_self]
  rfl

theorem getKey_insertKey_ne (fields : List (String × Value)) {key other : String}
    (v : Value) (h : other ≠ key) :
    (Value.obj (insertKey fields key v)).getKey other = (Value.obj fields).getKey other := by
  rw [getKey_obj, getKey_obj, lookupKey_insertKey_ne fields v h]

/-- Behavior of the `Document::merge` loop over the incoming object's entry
list: identity is preserved (struct fields and any embedded `_id`/`_rev`),
every non-identity entry is written, every untouched key keeps its value. -/
theorem mergeEntries_spec (entries : List (String × Value)) :
    ∀ d : Document, (∃ fs, d.doc = .obj fs) → (entries.map Prod.fst).Nodup →
    ∃ d2, d.mergeEntries entries = some d2
      ∧ d2._id = d._id ∧ d2._rev = d._rev
      ∧ (∃ fs2, d2.doc = .obj fs2)
      ∧ d2.doc.getKey "_id" = d.doc.getKey "_id"
      ∧ d2.doc.getKey "_rev" = d.doc.getKey "_rev"
      ∧ (∀ k v, k ≠ "_id" → k ≠ "_rev" → (k, v) ∈ entries → d2.doc.getKey k = v)
      ∧ (∀ k, k ∉ entries.map Prod.fst → d2.doc.getKey k = d.doc.getKey k) := by
  induction entries with
  | nil =>
    intro d hobj _
    exact ⟨d, rfl, rfl, rfl, hobj, rfl, rfl, by simp, fun _ _ => rfl⟩
  | cons p rest ih =>
    intro d hobj hnd
    obtain ⟨k0, v0⟩ := p
    obtain ⟨fs, hfs⟩ := hobj
    simp only [List.map_cons, List.nodup_cons] at hnd
    by_cases hid : k0 = "_id" ∨ k0 = "_rev"
    · obtain ⟨d2, hmerge, h1, h2, h3, h4, h5, h6, h7⟩ := ih d ⟨fs, hfs⟩ hnd.2
      refine ⟨d2, ?_, h1, h2, h3, h4, h5, ?_, ?_⟩
      · simpa [Document.mergeEntries, hid] using hmerge
      · intro k v hk1 hk2 hmem
        rcases List.mem_cons.mp hmem with heq | hmem2
        · obtain ⟨hk, hv⟩ := Prod.mk.injEq .. ▸ heq
          subst hk
          rcases hid with h | h
          · exact absurd h hk1
          · exact absurd h hk2
        · exact h6 k v hk1 hk2 hmem2
      · intro k hk
        simp only [List.map_cons, List.mem_cons] at hk
        push_neg at hk
        exact h7 k hk.2
    · push_neg at hid
      have hset : d.doc.setKey k0 v0 = some (.obj (insertKey fs k0 v0)) := by
        rw [hfs]
        rfl
      obtain ⟨d2, hmerge, h1, h2, h3, h4, h5, h6, h7⟩ :=
        ih { d with doc := .obj (insertKey fs k0 v0) } ⟨_, rfl⟩ hnd.2
      have hstep : d.mergeEntries ((k0, v0) :: rest)
          = Document.mergeEntries { d with doc := .obj (insertKey fs k0 v0) } rest := by
        simp [Document.mergeEntries, hid.1, hid.2, hset]
      refine ⟨d2, hstep ▸ hmerge, h1, h2, h3, ?_, ?_, ?_, ?_⟩
      · rw [h4, hfs]
        exact getKey_insertKey_ne fs v0 (Ne.symm hid.1)
      · rw [h5, hfs]
        exact getKey_insertKey_ne fs v0 (Ne.symm hid.2)
      · intro k v hk1 hk2 hmem
        rcases List.mem_cons.mp hmem with heq | hmem2
        · obtain ⟨hk, hv⟩ := Prod.mk.injEq .. ▸ heq
          subst hk
          subst hv
          rw [h7 k hnd.1]
          exact getKey_insertKey_self fs k v
        · exact h6 k v hk1 hk2 hmem2
      · intro k hk
        simp only [List.map_cons, List.mem_cons] at hk
        push_neg at hk
        rw [h7 k hk.2, hfs]
        exact getKey_insertKey_ne fs v0 hk.1

theorem rowKeep_of_wf {row : Value} (h : RowWF row) :
    rowKeep row = .ok (keepRow row) := by
  obtain ⟨herr, ⟨i, hi⟩, -⟩ := h
  rcases herr with herr | ⟨s, herr⟩ <;>
    simp [rowKeep, keepRow, extractOptString, extractString, herr, hi, idOf,
      Value.asStr, Value.isNull, Bind.bind, Except.bind]

theorem docNew_of_wf {row : Value} (h : RowWF row) :
    Document.new (row.getKey "doc") = .ok ⟨idOf row, revOf row, row.getKey "doc"⟩ := by
  obtain ⟨-, ⟨i, hi⟩, ⟨r, hr⟩⟩ := h
  simp [Document.new, extractString, hi, hr, idOf, revOf, Value.asStr,
    Bind.bind, Except.bind]

/-- The filter-and-wrap pipeline of `DocumentCollection::new` on well-formed
rows: it succeeds and returns exactly the kept rows, wrapped, in order. -/
theorem buildItems_spec (rs : List Value) (hwf : ∀ r ∈ rs, RowWF r) :
    buildItems rs = .ok ((rs.filter keepRow).map mkRowItem) := by
  induction rs with
  | nil => rfl
  | cons row rest ih =>
    have hw := hwf row (by simp)
    have hrest : ∀ r ∈ rest, RowWF r := fun r hr => hwf r (List.mem_cons_of_mem _ hr)
    have hk := rowKeep_of_wf hw
    by_cases h : keepRow row = true
    · simp [buildItems, hk, h, docNew_of_wf hw, ih hrest, List.filter_cons,
        mkRowItem, Bind.bind, Except.bind]
    · have h2 : keepRow row = false := by simpa using h
      simp [buildItems, hk, h2, ih hrest, List.filter_cons, Bind.bind, Except.bind]

/-- Every row falls in exactly one bucket: kept, error, or reserved-prefix
(an error row is counted as an error even if its id also starts with `'_'`). -/
theorem keep_err_design_partition (rs : List Value) :
    (rs.filter keepRow).length + rs.countP isErrRow + rs.countP isDesignRow
      = rs.length := by
  induction rs with
  | nil => rfl
  | cons row rest ih =>
    simp only [List.filter_cons, List.countP_cons, List.length_cons]
    cases h1 : (row.getKey "error").isNull <;>
      cases h2 : startsWithChar (idOf row) '_' <;>
        simp [keepRow, isErrRow, isDesignRow, h1, h2] <;> omega

theorem constructAll_of_wf (rows : List DocumentCollectionItem)
    (h : ∀ it ∈ rows, Document.new it.doc.doc = .ok it.doc) :
    constructAll (rows.map fun it => it.doc.get_data)
      = .ok (rows.map fun it => it.doc) := by
  induction rows with
  | nil => rfl
  | cons it rest ih =>
    have hit := h it (by simp)
    have hrest : ∀ i ∈ rest, Document.new i.doc.doc = .ok i.doc :=
      fun i hi => h i (List.mem_cons_of_mem _ hi)
    have ih2 := ih hrest
    simp only [Document.get_data] at ih2
    simp [constructAll, Document.get_data, hit, ih2, Bind.bind, Except.bind]

/-! The claims. -/

/-- C1: on a field holding the array `["id1","id2"]`, with a successful bulk
fetch returning documents `id1` and `id3`, the code leaves the field as the
EMPTY array: the re-filter `val[did] != Value::Null` indexes the original
array by a string key, which is always `Null`, so the fetched `id1` document
is dropped together with the unrequested `id3` one — contradicting both the
claim and the function's own doc comment, which says the field is populated
with the provided documents. -/
theorem populate_array_field_yields_empty :
    docWithIdArray.populate "f" gbId1Id3
      = some ⟨"d", "1", .obj [("_id", .str "d"), ("_rev", .str "1"),
          ("f", .arr [])]⟩ :=
  rfl

/-- C2: `Document::new` succeeds exactly when the JSON value carries string
`_id` and `_rev`; on success the typed fields equal those source values, and
otherwise the result is the hard `ExtractionError` failure. -/
theorem document_new_id_rev_contract (v : Value) :
    (∀ i r, v.getKey "_id" = .str i → v.getKey "_rev" = .str r →
        Document.new v = .ok ⟨i, r, v⟩)
  ∧ (((∃ i, v.getKey "_id" = .str i) ∧ (∃ r, v.getKey "_rev" = .str r))
      ∨ Document.new v = .error .extractionError) := by
  constructor
  · intro i r hi hr
    simp [Document.new, extractString, hi, hr, Bind.bind, Except.bind]
  · by_cases h1 : ∃ i, v.getKey "_id" = .str i
    · by_cases h2 : ∃ r, v.getKey "_rev" = .str r
      · exact Or.inl ⟨h1, h2⟩
      · refine Or.inr ?_
        obtain ⟨i, hi⟩ := h1
        push_neg at h2
        cases hr : v.getKey "_rev" <;>
          first
          | exact absurd hr (h2 _)
          | simp [Document.new, extractString, hi, hr, Bind.bind, Except.bind]
    · refine Or.inr ?_
      push_neg at h1
      cases hi : v.getKey "_id" <;>
        first
        | exact absurd hi (h1 _)
        | simp [Document.new, extractString, hi, Bind.bind, Except.bind]

/-- Witness for C2: `Document::new` on `{"_id":"id1","_rev":"r1"}` succeeds
with exactly those identity values. -/
theorem document_new_id_rev_contract_witness :
    Document.new docId1 = .ok ⟨"id1", "r1", docId1⟩ :=
  (document_new_id_rev_contract docId1).1 "id1" "r1" rfl rfl

/-- C3: `Document::merge` with an object writes every top-level entry except
`_id`/`_rev` into the payload (insert or overwrite), leaves every other key
untouched, and never changes the document's identity — neither the typed
`_id`/`_rev` fields nor any `_id`/`_rev` embedded in the payload. -/
theorem merge_overwrites_and_preserves_identity (d : Document)
    (entries : List (String × Value)) (hobj : ∃ fs, d.doc = .obj fs)
    (hnd : (entries.map Prod.fst).Nodup) :
    ∃ d2, d.merge (.obj entries) = some d2
      ∧ d2._id = d._id ∧ d2._rev = d._rev
      ∧ d2.doc.getKey "_id" = d.doc.getKey "_id"
      ∧ d2.doc.getKey "_rev" = d.doc.getKey "_rev"
      ∧ (∀ k v, k ≠ "_id" → k ≠ "_rev" → (k, v) ∈ entries → d2.doc.getKey k = v)
      ∧ (∀ k, k ∉ entries.map Prod.fst → d2.doc.getKey k = d.doc.getKey k) := by
  obtain ⟨d2, h0, h1, h2, -, h4, h5, h6, h7⟩ := mergeEntries_spec entries d hobj hnd
  exact ⟨d2, h0, h1, h2, h4, h5, h6, h7⟩

/-- Witness for C3: merging `{"a":1}` into a document with payload
`{"a":0,"b":2}` yields payload `{"a":1,"b":2}` exactly, and the general
theorem applies to this input. -/
theorem merge_overwrites_and_preserves_identity_witness :
    docMergeEx.merge (.obj [("a", .num 1)])
        = some ⟨"d", "1", .obj [("a", .num 1), ("b", .num 2)]⟩
    ∧ ∃ d2, docMergeEx.merge (.obj [("a", .num 1)]) = some d2
      ∧ d2._id = docMergeEx._id ∧ d2._rev = docMergeEx._rev
      ∧ d2.doc.getKey "_id" = docMergeEx.doc.getKey "_id"
      ∧ d2.doc.getKey "_rev" = docMergeEx.doc.getKey "_rev"
      ∧ (∀ k v, k ≠ "_id" → k ≠ "_rev" → (k, v) ∈ [("a", Value.num 1)]
          → d2.doc.getKey k = v)
      ∧ (∀ k, k ∉ [("a", Value.num 1)].map Prod.fst
          → d2.doc.getKey k = docMergeEx.doc.getKey k) :=
  ⟨rfl, merge_overwrites_and_preserves_identity docMergeEx [("a", .num 1)]
    ⟨_, rfl⟩ (by simp)⟩

/-- C4: on a raw query result with well-formed rows, `DocumentCollection::new`
retains exactly the rows that carry no error and no reserved-prefix id
(an overlapping row is dropped once, as an error row), preserves their input
order, and recomputes `total_rows` as the retained count. -/
theorem collection_new_filters (raw : Value) (rs : List Value)
    (hrows : raw.getKey "rows" = .arr rs)
    (hwf : ∀ r ∈ rs, RowWF r)
    (hoff : raw.getKey "offset" = .null
      ∨ ∃ n : Nat, raw.getKey "offset" = .num (n : Int) ∧ n < 2 ^ 32)
    (hlen : rs.length < 2 ^ 32) :
    ∃ c, DocumentCollection.new raw = .ok c
      ∧ c.rows = (rs.filter keepRow).map mkRowItem
      ∧ c.rows.length + rs.countP isErrRow + rs.countP isDesignRow = rs.length
      ∧ c.rows.length = rs.length - (rs.countP isErrRow + rs.countP isDesignRow)
      ∧ c.total_rows = c.rows.length := by
  have hbuild := buildItems_spec rs hwf
  have hpart := keep_err_design_partition rs
  have hlenmap : ((rs.filter keepRow).map mkRowItem).length = (rs.filter keepRow).length :=
    List.length_map _ _
  have hoffx : ∃ o, extractOptNat (raw.getKey "offset") = .ok o := by
    rcases hoff with hoff | ⟨n, hoff, hn⟩
    · exact ⟨none, by simp [extractOptNat, hoff]⟩
    · refine ⟨some ((n : Int)).toNat, ?_⟩
      norm_num at hn
      simp [extractOptNat, hoff, hn]
  obtain ⟨o, ho⟩ := hoffx
  refine ⟨⟨o, (rs.filter keepRow).map mkRowItem,
      ((rs.filter keepRow).map mkRowItem).length % 2 ^ 32, none⟩, ?_, rfl, ?_, ?_, ?_⟩
  · simp [DocumentCollection.new, extractValueList, hrows, hbuild, ho,
      Bind.bind, Except.bind]
  · simpa [hlenmap] using hpart
  · rw [hlenmap]
    omega
  · show ((rs.filter keepRow).map mkRowItem).length % 2 ^ 32 = _
    rw [hlenmap]
    have hle : (rs.filter keepRow).length ≤ rs.length := List.length_filter_le _ _
    rw [Nat.mod_eq_of_lt (lt_of_le_of_lt hle hlen)]

/-- Witness for C4: on `rawQueryEx` (four rows: one plain, one error row, one
`_design` row, one plain) the constructor keeps two rows in order and sets
`total_rows` to 2, ignoring the reported 99. -/
theorem collection_new_filters_witness :
    ∃ c, DocumentCollection.new rawQueryEx = .ok c
      ∧ c.rows = (rawRowsEx.filter keepRow).map mkRowItem
      ∧ c.rows.length + rawRowsEx.countP isErrRow + rawRowsEx.countP isDesignRow
          = rawRowsEx.length
      ∧ c.rows.length
          = rawRowsEx.length - (rawRowsEx.countP isErrRow + rawRowsEx.countP isDesignRow)
      ∧ c.total_rows = c.rows.length :=
  collection_new_filters rawQueryEx rawRowsEx rfl
    (by
      intro r hr
      simp only [rawRowsEx, docId1, docId3, List.mem_cons, List.not_mem_nil,
        or_false] at hr
      rcases hr with rfl | rfl | rfl | rfl
      · exact ⟨Or.inl rfl, ⟨"id1", rfl⟩, ⟨"r1", rfl⟩⟩
      · exact ⟨Or.inr ⟨"not_found", rfl⟩, ⟨"id3", rfl⟩, ⟨"r3", rfl⟩⟩
      · exact ⟨Or.inl rfl, ⟨"_design/x", rfl⟩, ⟨"r", rfl⟩⟩
      · exact ⟨Or.inl rfl, ⟨"id3", rfl⟩, ⟨"r3", rfl⟩⟩)
    (Or.inl rfl) (by norm_num [rawRowsEx])

/-- C5: when the bulk fetch fails, `populate` returns the document unchanged
(the field keeps its original value) and surfaces no error. -/
theorem populate_fetch_failure_noop (d : Document) (field : String)
    (gb : List String → Except Unit DocumentCollection)
    (hfail : gb (collectIds (d.doc.getKey field)) = .error ()) :
    d.populate field gb = some d := by
  by_cases hn : (d.doc.getKey field).isNull = true
  · simp [Document.populate, hn]
  · simp only [Bool.not_eq_true] at hn
    simp [Document.populate, hn, hfail, Except.map]

/-- Witness for C5: the fetch fails on the id-array document; `populate`
returns it untouched. -/
theorem populate_fetch_failure_noop_witness :
    docWithIdArray.populate "f" (fun _ => .error ()) = some docWithIdArray :=
  populate_fetch_failure_noop docWithIdArray "f" (fun _ => .error ()) rfl

/-- C6: a field that is absent from the document's object reads as `Null`,
and `populate` on a `Null`-valued field returns the document unchanged for
EVERY collaborator — the universal quantification over `gb` expresses that no
fetch influences the result. -/
theorem populate_null_or_absent_noop (d : Document) (field : String) :
    (∀ fields, d.doc = .obj fields → field ∉ fields.map Prod.fst →
        d.doc.getKey field = .null)
  ∧ (d.doc.getKey field = .null →
      ∀ gb : List String → Except Unit DocumentCollection,
        d.populate field gb = some d) := by
  constructor
  · intro fields hfs hmem
    rw [hfs, getKey_obj, lookupKey_eq_none_of_not_mem fields hmem]
    rfl
  · intro hnull gb
    simp [Document.populate, hnull, Value.isNull]

/-- Witness for C6: the id-array document has no field `g`; `populate` on `g`
leaves it unchanged even with a collaborator that would answer. -/
theorem populate_null_or_absent_noop_witness :
    docWithIdArray.doc.getKey "g" = .null
    ∧ docWithIdArray.populate "g" gbId1Id3 = some docWithIdArray :=
  ⟨rfl, (populate_null_or_absent_noop docWithIdArray "g").2 rfl gbId1Id3⟩

/-- C7: taking `get_data()`, reconstructing a `Document` from each value, and
re-wrapping with `new_from_documents` reproduces the original `_id` sequence
in order, for every collection whose items are internally consistent (as all
items built by this module are). -/
theorem roundtrip_preserves_ids (c : DocumentCollection) (bm : Option String)
    (h : ∀ it ∈ c.rows, itemWF it) :
    ∃ docs, constructAll c.get_data = .ok docs
      ∧ (DocumentCollection.new_from_documents docs bm).rows.map
            DocumentCollectionItem.id
          = c.rows.map DocumentCollectionItem.id := by
  refine ⟨c.rows.map fun it => it.doc, ?_, ?_⟩
  · exact constructAll_of_wf c.rows fun it hit => (h it hit).1
  · simp only [DocumentCollection.new_from_documents, DocumentCollectionItem.new,
      List.map_map]
    exact List.map_congr_left fun it hit => ((h it hit).2).symm

/-- Witness for C7: the round trip on the two-document collection reproduces
`["id1","id3"]`. -/
theorem roundtrip_preserves_ids_witness :
    ∃ docs, constructAll collId1Id3.get_data = .ok docs
      ∧ (DocumentCollection.new_from_documents docs (some "bm")).rows.map
            DocumentCollectionItem.id
          = collId1Id3.rows.map DocumentCollectionItem.id :=
  roundtrip_preserves_ids collId1Id3 (some "bm")
    (by
      intro it hit
      simp only [collId1Id3, DocumentCollection.new_from_documents,
        DocumentCollectionItem.new, docId1, docId3, List.map_cons, List.map_nil,
        List.mem_cons, List.not_mem_nil, or_false] at hit
      rcases hit with rfl | rfl
      · exact ⟨rfl, rfl⟩
      · exact ⟨rfl, rfl⟩)

/-- C8: positional access `collection[i]` delegates to
`rows.get(i).unwrap()`: out of bounds it panics (modelled by `none`), in
bounds it returns the item at position `i`. -/
theorem collection_index_contract (c : DocumentCollection) (i : Nat) :
    (c.rows.length ≤ i → c.index i = none)
  ∧ (∀ h : i < c.rows.length, c.index i = some (c.rows.get ⟨i, h⟩)) := by
  constructor
  · intro h
    simp [DocumentCollection.index, List.getElem?_eq_none h]
  · intro h
    simp [DocumentCollection.index, List.getElem?_eq_getElem h]

/-- Witness for C8: on the two-row collection, index 5 fails loudly and
index 0 returns the first item. -/
theorem collection_index_contract_witness :
    collId1Id3.index 5 = none
    ∧ collId1Id3.index 0 = some (collId1Id3.rows.get ⟨0, by decide⟩) :=
  ⟨(collection_index_contract collId1Id3 5).1 (by decide),
   (collection_index_contract collId1Id3 0).2 (by decide)⟩

/-- C9: `set_id`/`set_rev` on an object insert or overwrite `_id`/`_rev` and
touch no other key; on every non-object value they are exact no-ops. -/
theorem set_id_set_rev_contract (v : Value) (s : String) :
    (∀ fields, v = .obj fields →
        (v.set_id s).getKey "_id" = .str s
      ∧ (∀ k, k ≠ "_id" → (v.set_id s).getKey k = v.getKey k)
      ∧ (v.set_rev s).getKey "_rev" = .str s
      ∧ (∀ k, k ≠ "_rev" → (v.set_rev s).getKey k = v.getKey k))
  ∧ ((∀ fields, v ≠ .obj fields) → v.set_id s = v ∧ v.set_rev s = v) := by
  constructor
  · rintro fields rfl
    refine ⟨?_, ?_, ?_, ?_⟩
    · exact getKey_insertKey_self fields "_id" (.str s)
    · intro k hk
      exact getKey_insertKey_ne fields (.str s) hk
    · exact getKey_insertKey_self fields "_rev" (.str s)
    · intro k hk
      exact getKey_insertKey_ne fields (.str s) hk
  · intro h
    cases v
    case obj fields => exact absurd rfl (h fields)
    all_goals exact ⟨rfl, rfl⟩

/-- Witness for C9: on the object `{"x":1}`, `set_id "a"` writes `_id` and
keeps `x`; on the number `1`, both setters are no-ops. -/
theorem set_id_set_rev_contract_witness :
    (((Value.obj [("x", Value.num 1)]).set_id "a").getKey "_id" = .str "a"
      ∧ (∀ k, k ≠ "_id" →
          ((Value.obj [("x", Value.num 1)]).set_id "a").getKey k
            = (Value.obj [("x", Value.num 1)]).getKey k)
      ∧ (((Value.obj [("x", Value.num 1)]).set_rev "a").getKey "_rev" = .str "a")
      ∧ (∀ k, k ≠ "_rev" →
          ((Value.obj [("x", Value.num 1)]).set_rev "a").getKey k
            = (Value.obj [("x", Value.num 1)]).getKey k))
    ∧ ((Value.num 1).set_id "a" = Value.num 1
      ∧ (Value.num 1).set_rev "a" = Value.num 1) :=
  ⟨(set_id_set_rev_contract (Value.obj [("x", Value.num 1)]) "a").1 _ rfl,
   (set_id_set_rev_contract (Value.num 1) "a").2 (fun _ h => Value.noConfusion h)⟩

/-- C10: on a non-null, non-array field value, `populate` is not a no-op: it
collects the empty id list, and when the fetch of `[]` succeeds it overwrites
the field with the (array-typed) filtered results — which in particular
differs from the original non-array value. -/
theorem populate_nonarray_not_guarded (d : Document) (field : String)
    (gb : List String → Except Unit DocumentCollection) (coll : DocumentCollection)
    (hnn : d.doc.getKey field ≠ .null)
    (hna : ∀ xs, d.doc.getKey field ≠ .arr xs)
    (hgb : gb [] = .ok coll) :
    collectIds (d.doc.getKey field) = []
  ∧ ∃ d2, d.populate field gb = some d2
      ∧ d2._id = d._id ∧ d2._rev = d._rev
      ∧ d2.doc.getKey field
          = .arr (populateFilter (d.doc.getKey field) coll.get_data)
      ∧ d2.doc.getKey field ≠ d.doc.getKey field := by
  have hids : collectIds (d.doc.getKey field) = [] := by
    cases hv : d.doc.getKey field
    case arr xs => exact absurd hv (hna xs)
    all_goals rfl
  have hnotnull : (d.doc.getKey field).isNull = false := by
    cases hv : d.doc.getKey field
    case null => exact absurd hv hnn
    all_goals rfl
  have hobj : ∃ fields, d.doc = .obj fields := by
    cases hd : d.doc
    case obj fields => exact ⟨fields, rfl⟩
    all_goals
      exact absurd (by rw [hd]; rfl) hnn
  obtain ⟨fields, hfs⟩ := hobj
  refine ⟨hids, ⟨d._id, d._rev,
      .obj (insertKey fields field
        (.arr (populateFilter (d.doc.getKey field) coll.get_data)))⟩, ?_, rfl, rfl, ?_, ?_⟩
  · have hset : d.doc.setKey field
        (.arr (populateFilter (d.doc.getKey field) coll.get_data))
        = some (.obj (insertKey fields field
            (.arr (populateFilter (d.doc.getKey field) coll.get_data)))) := by
      rw [hfs]
      rfl
    simp only [Document.populate, hnotnull, hids, hgb, Except.map, Bool.false_eq_true,
      if_false, hset]
  · exact getKey_insertKey_self fields field _
  · rw [getKey_insertKey_self fields field _]
    exact Ne.symm (hna _)

/-- Witness for C10: on the field holding the string `"x"`, `populate` with a
successful fetch replaces the field by an array (here the empty one). -/
theorem populate_nonarray_not_guarded_witness :
    collectIds (docWithStrField.doc.getKey "f") = []
  ∧ ∃ d2, docWithStrField.populate "f" gbId1Id3 = some d2
      ∧ d2._id = docWithStrField._id ∧ d2._rev = docWithStrField._rev
      ∧ d2.doc.getKey "f"
          = .arr (populateFilter (docWithStrField.doc.getKey "f") collId1Id3.get_data)
      ∧ d2.doc.getKey "f" ≠ docWithStrField.doc.getKey "f" :=
  populate_nonarray_not_guarded docWithStrField "f" gbId1Id3 collId1Id3
    (fun h => Value.noConfusion h) (fun _ h => Value.noConfusion h) rfl

end CouchRs
